import Mathlib

/-!
# Verification of the NDArray (tensor) engine specification

The repository's notebooks exercise a tensor library whose behaviour the
design specification describes as a minimal N-dimensional array engine:
shape/stride/dtype/device metadata over a flat reference-counted storage,
views, in-place mutation, an external-buffer aliasing bridge, concatenation,
reductions, and device transfer.  The engine implementation itself is not
part of the repository sources (the notebooks only call it), so the engine
is modelled here from the specification, and each claim is settled against
that model.

Machine floating-point values are idealized as exact rationals (`ℚ`); every
concrete value appearing in the notebooks and claims is integral, where
rational arithmetic agrees with IEEE arithmetic.
-/

namespace NDEngine

/-- Modelled from the spec: enumerated element kind of an array
(spec §3, "dtype: enumerated element kind"). -/
inductive Dtype where
  | float32
  | float64
  | int64
  | boolKind
  deriving DecidableEq

/-- Modelled from the spec: enumerated placement tag
(spec §3, "device: enumerated placement tag"). -/
inductive Device where
  | cpu
  | mps
  deriving DecidableEq

/-- Modelled from the spec: the error kinds of §7. -/
inductive Err where
  | shapeError
  | deviceError
  | broadcastError
  | valueError
  | dtypeError
  deriving DecidableEq

/-- Element values: machine floats idealized as exact rationals. -/
abbrev Val := ℚ

/-- Modelled from the spec: the heap of storages ("storage: a
reference-counted flat buffer of dtype-typed elements").  A storage id is an
index into `bufs`; allocation appends a fresh buffer.  External flat buffers
(the NumPy side of the bridge, spec §4.6) live in the same heap, which is
what makes zero-copy aliasing expressible. -/
structure Store where
  bufs : List (List Val)
  deriving DecidableEq

/-- Modelled from the spec (§3 data model): an array is storage id, base
offset, shape, strides (in elements), dtype and device. -/
structure NDArray where
  storage : Nat
  offset : Nat
  shape : List Nat
  strides : List Nat
  dtype : Dtype
  device : Device
  deriving DecidableEq

/-- The buffer a storage id refers to (empty if the id is dangling). -/
def Store.buf (s : Store) (sid : Nat) : List Val :=
  s.bufs.getD sid []

/-- Allocate a fresh storage holding `data`; returns the new store and the
fresh storage id. -/
def Store.alloc (s : Store) (data : List Val) : Store × Nat :=
  (⟨s.bufs ++ [data]⟩, s.bufs.length)

def NDArray.rank (a : NDArray) : Nat := a.shape.length

/-- Modelled from the spec: `numel = product(shape)` (§3). -/
def NDArray.numel (a : NDArray) : Nat := a.shape.prod

/-- Row-major contiguous strides for a shape. -/
def contigStrides : List Nat → List Nat
  | [] => []
  | _ :: t => t.prod :: contigStrides t

/-- All multi-indices of a shape, in row-major (lexicographic) order. -/
def allIndices : List Nat → List (List Nat)
  | [] => [[]]
  | n :: t => (List.range n).flatMap fun i => (allIndices t).map fun ix => i :: ix

/-- Flat storage position of a multi-index: `offset + Σ idx_k * stride_k`
(spec §3, elements "logically addressed via strides"). -/
def flatIndex (a : NDArray) (idx : List Nat) : Nat :=
  a.offset + (List.zipWith (· * ·) idx a.strides).sum

/-- The flat storage positions an array addresses, in row-major order. -/
def positions (a : NDArray) : List Nat :=
  (allIndices a.shape).map (flatIndex a)

/-- Read one element through the array's layout. -/
def readElem (s : Store) (a : NDArray) (idx : List Nat) : Val :=
  (s.buf a.storage).getD (flatIndex a idx) 0

/-- All elements of the array in row-major order (what printing shows). -/
def readAll (s : Store) (a : NDArray) : List Val :=
  (allIndices a.shape).map (readElem s a)

/-- Write the pairs `(p, v)` into a buffer, in order. -/
def setPs (buf : List Val) : List (Nat × Val) → List Val
  | [] => buf
  | (p, v) :: rest => setPs (buf.set p v) rest

/-- Write `vals` element-for-element into the storage positions addressed by
`a` — the primitive underlying every in-place / `out=` / slice-assignment
write (spec §4.3, §4.5). -/
def writeVals (s : Store) (a : NDArray) (vals : List Val) : Store :=
  ⟨s.bufs.set a.storage (setPs (s.buf a.storage) ((positions a).zip vals))⟩

/-- Modelled from the spec: default dtype of factories invoked without an
explicit dtype (32-bit float, the notebooks' `torch.float32`). -/
def defaultDtype : Dtype := .float32

/-- Modelled from the spec: default device of factories — host memory
(the notebooks' `cpu`). -/
def defaultDevice : Device := .cpu

/-- Modelled from the spec: `ones(shape)` — fresh storage of `numel`
elements, all one, default dtype/device (spec §4.1). -/
def ones (s : Store) (shape : List Nat) : Store × NDArray :=
  let (s', sid) := s.alloc (List.replicate shape.prod 1)
  (s', ⟨sid, 0, shape, contigStrides shape, defaultDtype, defaultDevice⟩)

/-- Modelled from the spec: `zeros(shape)` (spec §4.1). -/
def zeros (s : Store) (shape : List Nat) : Store × NDArray :=
  let (s', sid) := s.alloc (List.replicate shape.prod 0)
  (s', ⟨sid, 0, shape, contigStrides shape, defaultDtype, defaultDevice⟩)

/-- The documented pseudo-random generator (spec §4.1 lets the implementer
pick any seeded PRNG): a linear congruential step modulo 2^31. -/
def lcg (x : Nat) : Nat :=
  (1103515245 * x + 12345) % 2 ^ 31

/-- The `n`-th raw draw of the generator from `seed`. -/
def lcgStream (seed : Nat) : Nat → Nat
  | 0 => lcg seed
  | n + 1 => lcg (lcgStream seed n)

/-- Modelled from the spec: `uniformRandom(shape)` draws samples in `[0,1)`
(each raw draw scaled by the modulus), fresh storage, default dtype/device
(spec §4.1). -/
def uniformRandom (s : Store) (seed : Nat) (shape : List Nat) : Store × NDArray :=
  let data := (List.range shape.prod).map fun i => ((lcgStream seed i : ℚ) / 2 ^ 31 : Val)
  let (s', sid) := s.alloc data
  (s', ⟨sid, 0, shape, contigStrides shape, defaultDtype, defaultDevice⟩)

/-- Modelled from the spec (§4.3): indexing one dimension with a single
integer drops that dimension, producing a VIEW (same storage, adjusted
offset/shape/strides, no copy).  `tensor[0]` is `selectDim t 0 0`,
`tensor[:,1]` is `selectDim t 1 1`. -/
def selectDim (a : NDArray) (d i : Nat) : NDArray :=
  { a with
    offset := a.offset + i * a.strides.getD d 0
    shape := a.shape.eraseIdx d
    strides := a.strides.eraseIdx d }

/-- Modelled from the spec (§4.3): assignment of a scalar through a sliced
view broadcasts the scalar across the selected region, mutating the shared
storage in place. -/
def assignScalar (s : Store) (view : NDArray) (v : Val) : Store :=
  writeVals s view (List.replicate view.numel v)

/-- Modelled from the spec (§4.5 in-place form): `a.add_(k)` writes
`a + k` into `a`'s existing storage; a scalar addend always broadcasts to
the receiver's shape, so no validation can fail. -/
def addScalarInPlace (s : Store) (a : NDArray) (k : Val) : Store :=
  writeVals s a ((readAll s a).map (· + k))

/-- Modelled from the spec (§4.5): axis-less `sum` collapses to a fresh
rank-0 array holding the aggregate. -/
def sumAll (s : Store) (a : NDArray) : Store × NDArray :=
  let (s', sid) := s.alloc [(readAll s a).sum]
  (s', ⟨sid, 0, [], [], a.dtype, a.device⟩)

/-- Modelled from the spec (§4.5): `item()` converts a single-element array
to a native scalar and fails with `ValueError` if `numel ≠ 1`. -/
def item (s : Store) (a : NDArray) : Except Err Val :=
  if a.numel = 1 then .ok (readElem s a (List.replicate a.rank 0))
  else .error .valueError

/-- The empty heap, the state at the start of a notebook session. -/
def emptyStore : Store := ⟨[]⟩

/-! ## External-buffer bridge (spec §4.6) -/

/-- Modelled from the spec (§4.6, §6): an externally-owned flat numeric
buffer (the NumPy side of the bridge).  Its element data lives in the shared
heap — that is exactly what "aliasing" means — together with its own element
kind, which is independent of the engine's default dtype. -/
structure ExtBuf where
  storage : Nat
  kind : Dtype
  deriving DecidableEq

/-- Direct inspection of an external buffer's elements. -/
def readBuf (s : Store) (b : ExtBuf) : List Val :=
  s.buf b.storage

/-- Modelled from the spec: `importExternalBuffer(buf)` (`torch.from_numpy`)
wraps the buffer without copying: the returned 1-D array's storage is an
alias over the buffer's memory and its dtype is the buffer's element kind
(spec §4.6). -/
def importExternalBuffer (s : Store) (b : ExtBuf) : NDArray :=
  ⟨b.storage, 0, [(s.buf b.storage).length], [1], b.kind, .cpu⟩

/-- Modelled from the spec: `exportToExternalBuffer(array)` (`Tensor.numpy`)
— the symmetric aliasing operation; fails with `DeviceError` off the host
(spec §4.6). -/
def exportToExternalBuffer (a : NDArray) : Except Err ExtBuf :=
  if a.device = Device.cpu then .ok ⟨a.storage, a.dtype⟩
  else .error .deviceError

/-- An in-place add performed on the external side (`np.add(n, k, out=n)`):
maps the buffer's own memory, no reallocation. -/
def bufAddScalar (s : Store) (b : ExtBuf) (k : Val) : Store :=
  ⟨s.bufs.set b.storage ((s.buf b.storage).map (· + k))⟩

/-! ## Elementwise binary operations (spec §4.5) -/

/-- Modelled from the spec (§4.3 broadcasting rule), on reversed
(trailing-aligned) shapes: a size-1 dimension stretches, mismatched non-1
sizes are rejected. -/
def bcastRev : List Nat → List Nat → Option (List Nat)
  | [], ys => some ys
  | xs, [] => some xs
  | x :: xs, y :: ys =>
    match bcastRev xs ys with
    | none => none
    | some rest =>
      if x = y then some (x :: rest)
      else if x = 1 then some (y :: rest)
      else if y = 1 then some (x :: rest)
      else none

/-- Broadcast shape of two shapes (dimensions compared trailing-aligned),
`none` when incompatible. -/
def broadcastShape (s1 s2 : List Nat) : Option (List Nat) :=
  (bcastRev s1.reverse s2.reverse).map List.reverse

/-- Modelled from the spec (§9 promotion table): integer + float → float;
64-bit wins over 32-bit. -/
def promoteDtype : Dtype → Dtype → Dtype
  | .float64, _ => .float64
  | _, .float64 => .float64
  | .float32, _ => .float32
  | _, .float32 => .float32
  | .int64, _ => .int64
  | _, .int64 => .int64
  | .boolKind, .boolKind => .boolKind

/-- The operand multi-index corresponding to a result multi-index under
broadcasting: keep the trailing `rank` coordinates, clamp size-1 dimensions
to 0. -/
def bIdx (shape idx : List Nat) : List Nat :=
  List.zipWith (fun n i => if n = 1 then 0 else i) shape (idx.drop (idx.length - shape.length))

/-- Read an operand element at a broadcast result index. -/
def readB (s : Store) (a : NDArray) (idx : List Nat) : Val :=
  readElem s a (bIdx a.shape idx)

/-- The element list of a broadcast elementwise binary operation, in
row-major order of the result shape. -/
def binOpVals (f : Val → Val → Val) (s : Store) (a b : NDArray) (sh : List Nat) : List Val :=
  (allIndices sh).map fun idx => f (readB s a idx) (readB s b idx)

/-- Modelled from the spec (§4.5): pure form of an elementwise binary op —
devices must match (`DeviceError`), shapes broadcast (`ShapeError` when
incompatible), result is a fresh array of the broadcast shape and promoted
dtype. -/
def binOp (f : Val → Val → Val) (s : Store) (a b : NDArray) : Except Err (Store × NDArray) :=
  if a.device ≠ b.device then .error .deviceError
  else
    match broadcastShape a.shape b.shape with
    | none => .error .shapeError
    | some sh =>
      let (s', sid) := s.alloc (binOpVals f s a b sh)
      .ok (s', ⟨sid, 0, sh, contigStrides sh, promoteDtype a.dtype b.dtype, a.device⟩)

/-- Modelled from the spec (§4.5): the explicit `out=` destination form —
validates that the caller-supplied destination has exactly the result shape,
writes the result values into the destination's existing storage and returns
that same array. -/
def binOpOut (f : Val → Val → Val) (s : Store) (a b dest : NDArray) :
    Except Err (Store × NDArray) :=
  if a.device ≠ b.device ∨ dest.device ≠ a.device then .error .deviceError
  else
    match broadcastShape a.shape b.shape with
    | none => .error .shapeError
    | some sh =>
      if dest.shape ≠ sh then .error .shapeError
      else .ok (writeVals s dest (binOpVals f s a b sh), dest)

/-- Modelled from the spec (§4.5, §7): the in-place form — validates FIRST
that the broadcast result shape exactly equals the receiver's current shape
(no resize), and only then writes into the receiver's storage
(validate-shape-then-write); on any failure the store is returned untouched.
State-passing style so that the claim "no partial write on failure" is
visible in the type. -/
def binOpInPlace (f : Val → Val → Val) (s : Store) (a b : NDArray) :
    Store × Except Err NDArray :=
  if a.device ≠ b.device then (s, .error .deviceError)
  else
    match broadcastShape a.shape b.shape with
    | none => (s, .error .shapeError)
    | some sh =>
      if sh = a.shape then (writeVals s a (binOpVals f s a b sh), .ok a)
      else (s, .error .shapeError)

/-- Pure elementwise multiply (`torch.mul` / `*`). -/
def mul (s : Store) (a b : NDArray) : Except Err (Store × NDArray) :=
  binOp (· * ·) s a b

/-- `out=` elementwise multiply (`torch.mul(a, b, out=dest)`). -/
def mulOut (s : Store) (a b dest : NDArray) : Except Err (Store × NDArray) :=
  binOpOut (· * ·) s a b dest

/-- In-place elementwise add (`a.add_(b)`). -/
def addInPlace (s : Store) (a b : NDArray) : Store × Except Err NDArray :=
  binOpInPlace (· + ·) s a b

/-! ## Matrix product (spec §4.5) -/

/-- The element list of a 2-D matrix product `a @ b` with inner dimension
`n`, in row-major order of the `m × p` result. -/
def matmulVals (s : Store) (a b : NDArray) (m n p : Nat) : List Val :=
  (allIndices [m, p]).map fun idx =>
    ((List.range n).map fun k =>
      readElem s a [idx.getD 0 0, k] * readElem s b [k, idx.getD 1 0]).sum

/-- Modelled from the spec (§4.5): pure 2-D matrix product — `A`'s last
dimension must equal `B`'s second-to-last (`ShapeError` otherwise), devices
must match, fresh result of shape `(A.rows, B.cols)`. -/
def matmul (s : Store) (a b : NDArray) : Except Err (Store × NDArray) :=
  match a.shape, b.shape with
  | [m, n], [n', p] =>
    if a.device ≠ b.device then .error .deviceError
    else if n ≠ n' then .error .shapeError
    else
      let (s', sid) := s.alloc (matmulVals s a b m n p)
      .ok (s', ⟨sid, 0, [m, p], contigStrides [m, p], promoteDtype a.dtype b.dtype, a.device⟩)
  | _, _ => .error .shapeError

/-- Modelled from the spec (§4.5): `out=` matrix product
(`torch.matmul(a, b, out=dest)`): writes into the caller-supplied
destination of matching shape and returns that same array. -/
def matmulOut (s : Store) (a b dest : NDArray) : Except Err (Store × NDArray) :=
  match a.shape, b.shape with
  | [m, n], [n', p] =>
    if a.device ≠ b.device ∨ dest.device ≠ a.device then .error .deviceError
    else if n ≠ n' then .error .shapeError
    else if dest.shape ≠ [m, p] then .error .shapeError
    else .ok (writeVals s dest (matmulVals s a b m n p), dest)
  | _, _ => .error .shapeError

/-! ## Concatenation (spec §4.4) -/

/-- Modelled from the spec (§4.4): the validation `concatenate` performs —
a non-empty input list, a valid dimension, and all inputs sharing rank,
dtype, and every dimension size except `dim` (encoded as shape equality
after zeroing out dimension `dim`). -/
def catOk (arrays : List NDArray) (dim : Nat) : Bool :=
  match arrays with
  | [] => false
  | a :: rest =>
    decide (dim < a.rank) &&
      rest.all fun b => b.dtype == a.dtype && b.shape.set dim 0 == a.shape.set dim 0

/-- The element a result multi-index selects, scanning the inputs in order
along the concatenation dimension. -/
def catSelect (s : Store) (dim : Nat) : List NDArray → List Nat → Val
  | [], _ => 0
  | a :: rest, idx =>
    let n := a.shape.getD dim 0
    if idx.getD dim 0 < n then readElem s a idx
    else catSelect s dim rest (idx.set dim (idx.getD dim 0 - n))

/-- Modelled from the spec (§4.4): `concatenate(arrays, dim)` — fails with
`ShapeError` unless the inputs agree per `catOk`; on success the result is a
FRESH allocation whose size along `dim` is the sum of the inputs' sizes,
with elements copied in input order. -/
def cat (s : Store) (arrays : List NDArray) (dim : Nat) : Except Err (Store × NDArray) :=
  match arrays with
  | [] => .error .shapeError
  | a :: rest =>
    if catOk (a :: rest) dim then
      let sh := a.shape.set dim (((a :: rest).map fun b => b.shape.getD dim 0).sum)
      let (s', sid) := s.alloc ((allIndices sh).map (catSelect s dim (a :: rest)))
      .ok (s', ⟨sid, 0, sh, contigStrides sh, a.dtype, a.device⟩)
    else .error .shapeError

/-! ## Device transfer (spec §4.7) -/

/-- Modelled from the spec (§4.7): `to(array, device)` — `DeviceError` if
the requested device is unavailable in the running process (availability is
the process-wide immutable capability set `avail`, spec §9); a no-op
returning the very same array when the device already matches; otherwise a
fresh storage on the target device holding a copy of all elements. -/
def NDArray.to (s : Store) (avail : Device → Bool) (a : NDArray) (dev : Device) :
    Except Err (Store × NDArray) :=
  if ¬ avail dev then .error .deviceError
  else if a.device = dev then .ok (s, a)
  else
    let (s', sid) := s.alloc (readAll s a)
    .ok (s', ⟨sid, 0, a.shape, contigStrides a.shape, a.dtype, dev⟩)

/-- Read a buffer at a list of flat positions (out-of-range reads default). -/
def readPs (buf : List Val) (ps : List Nat) : List Val :=
  ps.map fun p => buf.getD p 0

/-! ## Concrete notebook scenario (cells 8–12 of the tensors notebook) -/

/-- Store and tensor after `tensor = torch.ones(4, 4)`. -/
def c2Alloc : Store × NDArray := ones emptyStore [4, 4]

/-- Store after `tensor[:,1] = 0`. -/
def c2Store : Store := assignScalar c2Alloc.1 (selectDim c2Alloc.2 1 1) 0

/-! ## Storage lemmas -/

theorem setPs_length (l : List (Nat × Val)) (buf : List Val) :
    (setPs buf l).length = buf.length := by
  induction l generalizing buf with
  | nil => rfl
  | cons pv rest ih => cases pv with | mk p v => rw [setPs, ih]; exact List.length_set ..

theorem getD_setPs_not_mem (l : List (Nat × Val)) (buf : List Val) (p : Nat)
    (h : p ∉ l.map Prod.fst) :
    (setPs buf l).getD p 0 = buf.getD p 0 := by
  induction l generalizing buf with
  | nil => rfl
  | cons pv rest ih =>
    cases pv with
    | mk q v =>
      simp only [List.map_cons, List.mem_cons, not_or] at h
      rw [setPs, ih (buf.set q v) h.2, List.getD_eq_getElem?_getD, List.getD_eq_getElem?_getD,
        List.getElem?_set_ne (fun hqp => h.1 hqp.symm)]

theorem readPs_setPs_zip (ps : List Nat) (vs buf : List Val)
    (hnd : ps.Nodup) (hlt : ∀ p ∈ ps, p < buf.length) (hlen : vs.length = ps.length) :
    readPs (setPs buf (ps.zip vs)) ps = vs := by
  induction ps generalizing vs buf with
  | nil => cases vs with
    | nil => rfl
    | cons v vs => simp at hlen
  | cons p rest ih =>
    cases vs with
    | nil => simp at hlen
    | cons v vs =>
      simp only [List.length_cons, Nat.succ.injEq] at hlen
      simp only [List.nodup_cons] at hnd
      have hzf : (rest.zip vs).map Prod.fst = rest :=
        List.map_fst_zip rest vs (le_of_eq hlen.symm)
      have hplen : p < buf.length := hlt p (List.mem_cons_self ..)
      have h1 : (setPs (buf.set p v) (rest.zip vs)).getD p 0 = v := by
        rw [getD_setPs_not_mem _ _ _ (by rw [hzf]; exact fun hp => hnd.1 hp),
          List.getD_eq_getElem?_getD, List.getElem?_set_self hplen]
        rfl
      have h2 : readPs (setPs (buf.set p v) (rest.zip vs)) rest = vs :=
        ih vs (buf.set p v) hnd.2
          (fun q hq => by rw [List.length_set]; exact hlt q (List.mem_cons_of_mem _ hq)) hlen
      show (setPs (buf.set p v) (rest.zip vs)).getD p 0 ::
        readPs (setPs (buf.set p v) (rest.zip vs)) rest = v :: vs
      rw [h1, h2]

theorem readPs_range (buf : List Val) : readPs buf (List.range buf.length) = buf := by
  apply List.ext_getElem
  · simp [readPs]
  · intro n h1 h2
    simp only [readPs, List.getElem_map, List.getElem_range]
    exact List.getD_eq_getElem buf 0 h2

theorem length_allIndices (shape : List Nat) : (allIndices shape).length = shape.prod := by
  induction shape with
  | nil => rfl
  | cons n t ih =>
    rw [allIndices, List.length_flatMap, List.prod_cons]
    have : ∀ i : Nat, (List.length ∘ fun i => (allIndices t).map fun ix => i :: ix) i = t.prod := by
      intro i; simp [ih]
    rw [List.map_congr_left (fun i _ => this i)]
    simp [List.map_const', Nat.mul_comm]

theorem flatMap_range_mul (n P : Nat) :
    ((List.range n).flatMap fun i => (List.range P).map fun j => i * P + j)
      = List.range (n * P) := by
  induction n with
  | zero => simp
  | succ n ih =>
    rw [List.range_succ, List.flatMap_append, ih, Nat.succ_mul, List.range_add]
    simp [Nat.add_comm]

theorem rankUnrank (shape : List Nat) :
    ((allIndices shape).map fun idx => (List.zipWith (· * ·) idx (contigStrides shape)).sum)
      = List.range shape.prod := by
  induction shape with
  | nil =>
    have : List.range 1 = [0] := rfl
    simp [allIndices, contigStrides, this]
  | cons n t ih =>
    rw [allIndices, contigStrides, List.map_flatMap]
    have inner : ∀ i : Nat,
        (((allIndices t).map fun ix => i :: ix).map fun idx =>
          (List.zipWith (· * ·) idx (t.prod :: contigStrides t)).sum)
          = (List.range t.prod).map fun j => i * t.prod + j := by
      intro i
      rw [List.map_map, ← ih, List.map_map]
      apply List.map_congr_left
      intro ix _
      simp [List.zipWith_cons_cons]
    rw [funext inner, flatMap_range_mul, List.prod_cons]

theorem length_positions (a : NDArray) : (positions a).length = a.numel := by
  simp [positions, length_allIndices, NDArray.numel]

theorem positions_eq_range (a : NDArray) (h1 : a.offset = 0)
    (h2 : a.strides = contigStrides a.shape) :
    positions a = List.range a.numel := by
  show List.map (flatIndex a) (allIndices a.shape) = List.range a.shape.prod
  rw [← rankUnrank a.shape]
  apply List.map_congr_left
  intro idx _
  simp [flatIndex, h1, h2]

theorem readAll_eq_readPs (s : Store) (a : NDArray) :
    readAll s a = readPs (s.buf a.storage) (positions a) := by
  simp only [readAll, readPs, positions, readElem, List.map_map]
  rfl

theorem length_readAll (s : Store) (a : NDArray) : (readAll s a).length = a.numel := by
  simp [readAll, length_allIndices, NDArray.numel]

theorem readAll_contig (s : Store) (a : NDArray) (h1 : a.offset = 0)
    (h2 : a.strides = contigStrides a.shape) (h3 : (s.buf a.storage).length = a.numel) :
    readAll s a = s.buf a.storage := by
  rw [readAll_eq_readPs, positions_eq_range a h1 h2, ← h3, readPs_range]

theorem bufs_length_writeVals (s : Store) (a : NDArray) (vs : List Val) :
    (writeVals s a vs).bufs.length = s.bufs.length := by
  simp [writeVals]

theorem buf_writeVals_self (s : Store) (a : NDArray) (vs : List Val)
    (h : a.storage < s.bufs.length) :
    (writeVals s a vs).buf a.storage = setPs (s.buf a.storage) ((positions a).zip vs) := by
  show (s.bufs.set a.storage _).getD a.storage [] = _
  rw [List.getD_eq_getElem?_getD, List.getElem?_set_self h]
  rfl

theorem buf_writeVals_other (s : Store) (a : NDArray) (vs : List Val) (sid : Nat)
    (h : sid ≠ a.storage) :
    (writeVals s a vs).buf sid = s.buf sid := by
  show (s.bufs.set a.storage _).getD sid [] = s.bufs.getD sid []
  rw [List.getD_eq_getElem?_getD, List.getD_eq_getElem?_getD,
    List.getElem?_set_ne (Ne.symm h)]

theorem readAll_writeVals (s : Store) (a : NDArray) (vs : List Val)
    (hst : a.storage < s.bufs.length)
    (hnd : (positions a).Nodup)
    (hlt : ∀ p ∈ positions a, p < (s.buf a.storage).length)
    (hlen : vs.length = a.numel) :
    readAll (writeVals s a vs) a = vs := by
  rw [readAll_eq_readPs, buf_writeVals_self s a vs hst]
  exact readPs_setPs_zip (positions a) vs (s.buf a.storage) hnd hlt
    (by rw [hlen, length_positions])

theorem buf_writeVals_contig (s : Store) (a : NDArray) (vs : List Val)
    (hst : a.storage < s.bufs.length) (h1 : a.offset = 0)
    (h2 : a.strides = contigStrides a.shape)
    (h3 : (s.buf a.storage).length = a.numel) (h4 : vs.length = a.numel) :
    (writeVals s a vs).buf a.storage = vs := by
  have hps : positions a = List.range a.numel := positions_eq_range a h1 h2
  have hread : readPs (setPs (s.buf a.storage) ((positions a).zip vs)) (positions a) = vs :=
    readPs_setPs_zip (positions a) vs (s.buf a.storage)
      (by rw [hps]; exact List.nodup_range _)
      (by intro p hp; rw [h3]; rw [hps] at hp; exact List.mem_range.mp hp)
      (by rw [h4, length_positions])
  have hlenB : (setPs (s.buf a.storage) ((positions a).zip vs)).length = a.numel := by
    rw [setPs_length, h3]
  calc (writeVals s a vs).buf a.storage
      = setPs (s.buf a.storage) ((positions a).zip vs) := buf_writeVals_self s a vs hst
    _ = readPs (setPs (s.buf a.storage) ((positions a).zip vs))
          (List.range (setPs (s.buf a.storage) ((positions a).zip vs)).length) :=
        (readPs_range _).symm
    _ = vs := by rw [hlenB, ← hps]; exact hread

theorem allIndices_of_prod_one (shape : List Nat) (h : shape.prod = 1) :
    allIndices shape = [List.replicate shape.length 0] := by
  induction shape with
  | nil => rfl
  | cons n t ih =>
    rw [List.prod_cons] at h
    have hn : n = 1 := Nat.eq_one_of_mul_eq_one_right h
    subst hn
    rw [Nat.one_mul] at h
    have h1 : List.range 1 = [0] := rfl
    simp [allIndices, h1, ih h, List.replicate_succ]

theorem getD_replicate_lt (n : Nat) (c : Val) (p : Nat) (h : p < n) :
    (List.replicate n c).getD p 0 = c := by
  rw [List.getD_eq_getElem _ _ (by simpa using h)]
  exact List.getElem_replicate ..

theorem buf_alloc_self (s : Store) (d : List Val) :
    (s.alloc d).1.buf (s.alloc d).2 = d := by
  show (s.bufs ++ [d]).getD s.bufs.length [] = d
  rw [List.getD_eq_getElem?_getD, List.getElem?_append_right (Nat.le_refl _)]
  simp

theorem buf_alloc_other (s : Store) (d : List Val) (sid : Nat) (h : sid < s.bufs.length) :
    (s.alloc d).1.buf sid = s.buf sid := by
  show (s.bufs ++ [d]).getD sid [] = s.bufs.getD sid []
  rw [List.getD_eq_getElem?_getD, List.getD_eq_getElem?_getD, List.getElem?_append_left h]

theorem buf_bufAddScalar_self (s : Store) (b : ExtBuf) (k : Val)
    (hb : b.storage < s.bufs.length) :
    (bufAddScalar s b k).buf b.storage = (s.buf b.storage).map (· + k) := by
  show (s.bufs.set b.storage _).getD b.storage [] = _
  rw [List.getD_eq_getElem?_getD, List.getElem?_set_self hb]
  rfl

/-!
## Claim theorems
-/

/-- Claim C1 (aliasing law for the external-buffer bridge): for every
external flat buffer `buf` present in the heap, importing it and performing
an in-place add of a constant `k` on the resulting array makes direct
inspection of `buf` show every element increased by `k`, element-for-element;
`exportToExternalBuffer` on the imported array hands back an alias of the
same buffer; and symmetrically, an in-place mutation performed on `buf`
itself is visible element-for-element through the imported array (no
reallocation occurs on either side). -/
theorem claim_C1_external_buffer_aliasing (s : Store) (b : ExtBuf) (k : Val)
    (hb : b.storage < s.bufs.length) :
    readBuf (addScalarInPlace s (importExternalBuffer s b) k) b
        = (readBuf s b).map (· + k) ∧
    exportToExternalBuffer (importExternalBuffer s b) = .ok ⟨b.storage, b.kind⟩ ∧
    readAll (bufAddScalar s b k) (importExternalBuffer s b)
        = (readAll s (importExternalBuffer s b)).map (· + k) := by
  set a := importExternalBuffer s b with ha
  have hstor : a.storage = b.storage := rfl
  have hoff : a.offset = 0 := rfl
  have hstr : a.strides = contigStrides a.shape := rfl
  have hnum : (s.buf a.storage).length = a.numel := by
    simp [ha, importExternalBuffer, NDArray.numel, Store.buf]
  have hread : readAll s a = s.buf b.storage := readAll_contig s a hoff hstr hnum
  refine ⟨?_, rfl, ?_⟩
  · show (writeVals s a ((readAll s a).map (· + k))).buf b.storage = _
    rw [← hstor]
    rw [buf_writeVals_contig s a _ (hstor ▸ hb) hoff hstr hnum
      (by rw [List.length_map, length_readAll]), hread]
    rfl
  · have hbuf : (bufAddScalar s b k).buf b.storage = (s.buf b.storage).map (· + k) :=
      buf_bufAddScalar_self s b k hb
    have hnum' : ((bufAddScalar s b k).buf a.storage).length = a.numel := by
      rw [hstor, hbuf, List.length_map]
      exact hnum
    rw [readAll_contig (bufAddScalar s b k) a hoff hstr hnum', hread, hstor, hbuf]

/-- Claim C1 witness: the law at the concrete two-element buffer `[1, 2]`
with `k = 3`. -/
theorem claim_C1_witness :
    readBuf (addScalarInPlace (⟨[[1, 2]]⟩ : Store)
        (importExternalBuffer ⟨[[1, 2]]⟩ ⟨0, .float64⟩) 3) ⟨0, .float64⟩
        = (readBuf (⟨[[1, 2]]⟩ : Store) ⟨0, .float64⟩).map (· + 3) ∧
    exportToExternalBuffer (importExternalBuffer (⟨[[1, 2]]⟩ : Store) ⟨0, .float64⟩)
        = .ok ⟨0, .float64⟩ ∧
    readAll (bufAddScalar (⟨[[1, 2]]⟩ : Store) ⟨0, .float64⟩ 3)
        (importExternalBuffer (⟨[[1, 2]]⟩ : Store) ⟨0, .float64⟩)
        = (readAll (⟨[[1, 2]]⟩ : Store)
            (importExternalBuffer (⟨[[1, 2]]⟩ : Store) ⟨0, .float64⟩)).map (· + 3) :=
  claim_C1_external_buffer_aliasing ⟨[[1, 2]]⟩ ⟨0, .float64⟩ 3 (by decide)

/-- Claim C2: for `tensor = ones(4,4)` followed by the sliced assignment
`tensor[:,1] = 0`, reading `tensor[0]` yields `[1, 0, 1, 1]`; `tensor.sum()`
yields a rank-0 (shape `[]`) array; and `item()` on it equals `12`. -/
theorem claim_C2_slice_sum_item :
    readAll c2Store (selectDim c2Alloc.2 0 0) = [1, 0, 1, 1] ∧
    (sumAll c2Store c2Alloc.2).2.shape = [] ∧
    item (sumAll c2Store c2Alloc.2).1 (sumAll c2Store c2Alloc.2).2 = .ok 12 := by
  refine ⟨?_, rfl, ?_⟩
  · norm_num [c2Store, c2Alloc, ones, emptyStore, Store.alloc, assignScalar, writeVals,
      selectDim, readAll, readElem, allIndices, positions, flatIndex, contigStrides,
      NDArray.numel, Store.buf, setPs, List.range_succ]
  · norm_num [c2Store, c2Alloc, ones, emptyStore, Store.alloc, assignScalar, writeVals,
      selectDim, readAll, readElem, allIndices, positions, flatIndex, contigStrides,
      NDArray.numel, NDArray.rank, Store.buf, setPs, sumAll, item, List.range_succ]

/-- Claim C3 (frame effect of in-place add): for `x = ones(4,4)` built over
an arbitrary prior heap, `x.add_(5)` allocates nothing (it writes into `x`'s
existing storage, whose buffer keeps its length — no resize, same storage
identity), yields an array whose every element is 6, and any aliasing view
over `x` reading in bounds observes 6 as well. -/
theorem claim_C3_inplace_add_frame (s : Store) :
    (addScalarInPlace (ones s [4, 4]).1 (ones s [4, 4]).2 5).bufs.length
        = (ones s [4, 4]).1.bufs.length ∧
    readAll (addScalarInPlace (ones s [4, 4]).1 (ones s [4, 4]).2 5) (ones s [4, 4]).2
        = List.replicate 16 6 ∧
    (∀ v : NDArray, v.storage = (ones s [4, 4]).2.storage → ∀ idx : List Nat,
        flatIndex v idx < 16 →
        readElem (addScalarInPlace (ones s [4, 4]).1 (ones s [4, 4]).2 5) v idx = 6) := by
  set s1 := (ones s [4, 4]).1 with hs1
  set x := (ones s [4, 4]).2 with hx
  have hxdef : x = ⟨s.bufs.length, 0, [4, 4], [4, 1], defaultDtype, defaultDevice⟩ := rfl
  have hs1def : s1 = ⟨s.bufs ++ [List.replicate 16 1]⟩ := rfl
  have hst : x.storage < s1.bufs.length := by
    rw [hxdef, hs1def]
    simp
  have hoff : x.offset = 0 := rfl
  have hstr : x.strides = contigStrides x.shape := rfl
  have hbuf1 : s1.buf x.storage = List.replicate 16 1 := by
    rw [hxdef, hs1def]
    show (s.bufs ++ [List.replicate 16 1]).getD s.bufs.length [] = _
    rw [List.getD_eq_getElem?_getD, List.getElem?_append_right (Nat.le_refl _)]
    simp
  have hnum : (s1.buf x.storage).length = x.numel := by
    rw [hbuf1, hxdef]
    simp [NDArray.numel]
  have hread1 : readAll s1 x = List.replicate 16 1 := by
    rw [readAll_contig s1 x hoff hstr hnum, hbuf1]
  have hvals : (readAll s1 x).map (· + 5) = List.replicate 16 6 := by
    rw [hread1, List.map_replicate]
    norm_num
  have hbuf' : (addScalarInPlace s1 x 5).buf x.storage = List.replicate 16 6 := by
    show (writeVals s1 x ((readAll s1 x).map (· + 5))).buf x.storage = _
    rw [buf_writeVals_contig s1 x _ hst hoff hstr hnum
      (by rw [List.length_map, length_readAll]), hvals]
  refine ⟨bufs_length_writeVals .., ?_, ?_⟩
  · have hnum' : ((addScalarInPlace s1 x 5).buf x.storage).length = x.numel := by
      rw [hbuf', hxdef]
      simp [NDArray.numel]
    rw [readAll_contig _ x hoff hstr hnum', hbuf']
  · intro v hv idx hidx
    show ((addScalarInPlace s1 x 5).buf v.storage).getD (flatIndex v idx) 0 = 6
    rw [hv, hbuf']
    exact getD_replicate_lt 16 6 _ hidx

/-- Claim C3 witness: the row-0 view of `x` (created before the in-place
add) reads 6 at index 2 afterwards. -/
theorem claim_C3_witness :
    readElem (addScalarInPlace (ones emptyStore [4, 4]).1 (ones emptyStore [4, 4]).2 5)
      (selectDim (ones emptyStore [4, 4]).2 0 0) [2] = 6 :=
  (claim_C3_inplace_add_frame emptyStore).2.2
    (selectDim (ones emptyStore [4, 4]).2 0 0) rfl [2] (by decide)

/-- Claim C7: `item()` succeeds exactly on single-element arrays — it
returns `v` precisely when `numel = 1` and the array's single element is
`v`, and fails with `ValueError` whenever `numel ≠ 1`. -/
theorem claim_C7_item_single_element (s : Store) (a : NDArray) (v : Val) :
    (item s a = .ok v ↔ a.numel = 1 ∧ readAll s a = [v]) ∧
    (a.numel ≠ 1 → item s a = .error .valueError) := by
  constructor
  · by_cases h : a.numel = 1
    · have hall : allIndices a.shape = [List.replicate a.shape.length 0] :=
        allIndices_of_prod_one a.shape h
      have hra : readAll s a = [readElem s a (List.replicate a.rank 0)] := by
        rw [readAll, hall]
        rfl
      rw [item, if_pos h, hra]
      constructor
      · intro hok
        exact ⟨h, by rw [Except.ok.injEq] at hok; rw [hok]⟩
      · intro hv
        have h2 := hv.2
        rw [List.cons.injEq] at h2
        rw [h2.1]
    · rw [item, if_neg h]
      constructor
      · intro hok
        exact absurd hok (by simp)
      · intro hv
        exact absurd hv.1 h
  · intro h
    rw [item, if_neg h]

/-- Claim C7 witness: `item` succeeds on a rank-0 array holding 7, and
fails with `ValueError` on a two-element array over the same heap. -/
theorem claim_C7_witness :
    item (⟨[[7]]⟩ : Store) ⟨0, 0, [], [], .float32, .cpu⟩ = .ok 7 ∧
    item (⟨[[7]]⟩ : Store) ⟨0, 0, [2], [1], .float32, .cpu⟩ = .error .valueError :=
  ⟨(claim_C7_item_single_element ⟨[[7]]⟩ ⟨0, 0, [], [], .float32, .cpu⟩ 7).1.mpr ⟨rfl, rfl⟩,
    (claim_C7_item_single_element ⟨[[7]]⟩ ⟨0, 0, [2], [1], .float32, .cpu⟩ 0).2 (by decide)⟩

/-- Claim C9: `importExternalBuffer` preserves the external buffer's element
kind — the imported array's dtype is exactly the buffer's kind (whatever it
is, including 64-bit float, which differs from the engine's 32-bit-float
default), it aliases the buffer's storage (zero-copy), and the elements seen
through the array are exactly the buffer's elements, with no cast or
conversion. -/
theorem claim_C9_import_preserves_dtype (s : Store) (b : ExtBuf) :
    (importExternalBuffer s b).dtype = b.kind ∧
    (importExternalBuffer s b).storage = b.storage ∧
    readAll s (importExternalBuffer s b) = readBuf s b := by
  refine ⟨rfl, rfl, ?_⟩
  exact readAll_contig s _ rfl rfl
    (by simp [importExternalBuffer, NDArray.numel, Store.buf])

/-- Claim C10: factories invoked without an explicit dtype/device default to
32-bit float on the host device, and every element of a `uniformRandom`
result lies in the half-open interval `[0, 1)`. -/
theorem claim_C10_factory_defaults (s : Store) (seed : Nat) (shape : List Nat) :
    (ones s shape).2.dtype = .float32 ∧ (ones s shape).2.device = .cpu ∧
    (zeros s shape).2.dtype = .float32 ∧ (zeros s shape).2.device = .cpu ∧
    (uniformRandom s seed shape).2.dtype = .float32 ∧
    (uniformRandom s seed shape).2.device = .cpu ∧
    (∀ v ∈ readAll (uniformRandom s seed shape).1 (uniformRandom s seed shape).2,
      0 ≤ v ∧ v < 1) := by
  refine ⟨rfl, rfl, rfl, rfl, rfl, rfl, ?_⟩
  have hstream : ∀ n, lcgStream seed n < 2 ^ 31 := by
    intro n
    cases n with
    | zero => exact Nat.mod_lt _ (by norm_num)
    | succ m => exact Nat.mod_lt _ (by norm_num)
  have hbuf : (uniformRandom s seed shape).1.buf (uniformRandom s seed shape).2.storage
      = (List.range shape.prod).map fun i => ((lcgStream seed i : ℚ) / 2 ^ 31 : Val) :=
    buf_alloc_self s _
  have hread : readAll (uniformRandom s seed shape).1 (uniformRandom s seed shape).2
      = (List.range shape.prod).map fun i => ((lcgStream seed i : ℚ) / 2 ^ 31 : Val) := by
    rw [readAll_contig _ _ rfl rfl (by rw [hbuf]; simp [NDArray.numel, uniformRandom]), hbuf]
  rw [hread]
  intro v hv
  rw [List.mem_map] at hv
  obtain ⟨i, _, hvi⟩ := hv
  subst hvi
  constructor
  · exact div_nonneg (Nat.cast_nonneg _) (by norm_num)
  · rw [div_lt_one (by norm_num)]
    exact_mod_cast hstream i

/-- Claim C10 witness: for seed 0 and shape `[1]` the single drawn sample is
`12345 / 2^31`, which lies in `[0, 1)`. -/
theorem claim_C10_witness :
    0 ≤ ((12345 : ℚ) / 2 ^ 31) ∧ ((12345 : ℚ) / 2 ^ 31) < 1 :=
  (claim_C10_factory_defaults emptyStore 0 [1]).2.2.2.2.2.2 ((12345 : ℚ) / 2 ^ 31)
    (by norm_num [readAll, readElem, uniformRandom, Store.alloc, Store.buf, emptyStore,
      allIndices, flatIndex, contigStrides, lcgStream, lcg, List.range_succ])

/-- Claim C6: device transfer — when the array is already on the requested
(available) device, `to` is a no-op returning the very same array and store;
`to` is idempotent (the second call is a no-op returning the same storage);
and when the devices differ, `to` allocates fresh storage (whose id differs
from every storage id already in the heap, breaking any prior aliasing) on
the target device and copies all elements. -/
theorem claim_C6_device_transfer (s : Store) (avail : Device → Bool) (a : NDArray)
    (dev : Device) (hav : avail dev = true) :
    (a.device = dev → NDArray.to s avail a dev = .ok (s, a)) ∧
    (∀ s' r, NDArray.to s avail a dev = .ok (s', r) →
        NDArray.to s' avail r dev = .ok (s', r)) ∧
    (a.device ≠ dev →
        NDArray.to s avail a dev
          = .ok (⟨s.bufs ++ [readAll s a]⟩,
              ⟨s.bufs.length, 0, a.shape, contigStrides a.shape, a.dtype, dev⟩) ∧
        (∀ sid, sid < s.bufs.length → s.bufs.length ≠ sid) ∧
        readAll (⟨s.bufs ++ [readAll s a]⟩ : Store)
            ⟨s.bufs.length, 0, a.shape, contigStrides a.shape, a.dtype, dev⟩
          = readAll s a) := by
  have hcopy : readAll (⟨s.bufs ++ [readAll s a]⟩ : Store)
      ⟨s.bufs.length, 0, a.shape, contigStrides a.shape, a.dtype, dev⟩ = readAll s a := by
    have hb : (⟨s.bufs ++ [readAll s a]⟩ : Store).buf s.bufs.length = readAll s a :=
      buf_alloc_self s (readAll s a)
    rw [readAll_contig _ _ rfl rfl (by rw [hb, length_readAll]; rfl), hb]
  have hNoop : a.device = dev → NDArray.to s avail a dev = .ok (s, a) := by
    intro h
    unfold NDArray.to
    rw [if_neg (by simp [hav]), if_pos h]
  have hTrans : a.device ≠ dev → NDArray.to s avail a dev
      = .ok (⟨s.bufs ++ [readAll s a]⟩,
          ⟨s.bufs.length, 0, a.shape, contigStrides a.shape, a.dtype, dev⟩) := by
    intro hne
    unfold NDArray.to
    rw [if_neg (by simp [hav]), if_neg hne]
    rfl
  refine ⟨hNoop, ?_, ?_⟩
  · intro s' r hok
    by_cases h : a.device = dev
    · rw [hNoop h, Except.ok.injEq, Prod.mk.injEq] at hok
      obtain ⟨hs, hr⟩ := hok
      subst hs
      subst hr
      exact hNoop h
    · rw [hTrans h, Except.ok.injEq, Prod.mk.injEq] at hok
      obtain ⟨hs, hr⟩ := hok
      subst hs
      subst hr
      unfold NDArray.to
      rw [if_neg (by simp [hav]), if_pos rfl]
  · intro hne
    exact ⟨hTrans hne, fun sid hsid hc => absurd (hc ▸ hsid) (Nat.lt_irrefl _), hcopy⟩

/-- Claim C6 witness: transferring a host array to the host is a no-op
returning the same array, and a transfer to the accelerator of the
one-element array over the singleton heap allocates fresh storage and copies
the element. -/
theorem claim_C6_witness :
    NDArray.to emptyStore (fun _ => true) ⟨0, 0, [], [], .float32, .cpu⟩ .cpu
        = .ok (emptyStore, ⟨0, 0, [], [], .float32, .cpu⟩) ∧
    NDArray.to (⟨[[7]]⟩ : Store) (fun _ => true) ⟨0, 0, [1], [1], .float32, .cpu⟩ .mps
        = .ok (⟨[[7], [7]]⟩, ⟨1, 0, [1], [1], .float32, .mps⟩) := by
  constructor
  · exact (claim_C6_device_transfer emptyStore (fun _ => true) _ .cpu rfl).1 rfl
  · have h := ((claim_C6_device_transfer ⟨[[7]]⟩ (fun _ => true)
      ⟨0, 0, [1], [1], .float32, .cpu⟩ .mps rfl).2.2 (by decide)).1
    rw [h]
    rfl

/-- Claim C8 (failed in-place operations are atomic): the in-place add
validates first and writes only after validation — it reports `ShapeError`
exactly when (devices match and) the broadcast result shape is not exactly
the receiver's shape, on EVERY failure the returned store is the input store
completely unchanged (no partial write), and on success it allocates no
storage. -/
theorem claim_C8_inplace_atomic (s : Store) (a b : NDArray) :
    ((addInPlace s a b).2 = .error .shapeError ↔
        a.device = b.device ∧ broadcastShape a.shape b.shape ≠ some a.shape) ∧
    (∀ e, (addInPlace s a b).2 = .error e → (addInPlace s a b).1 = s) ∧
    (∀ r, (addInPlace s a b).2 = .ok r →
        r = a ∧ (addInPlace s a b).1.bufs.length = s.bufs.length) := by
  unfold addInPlace binOpInPlace
  split
  next hd =>
    exact ⟨⟨fun hc => absurd hc (by simp), fun hc => absurd hc.1 hd⟩,
      fun e _ => rfl, fun r hr => absurd hr (by simp)⟩
  next hd =>
    split
    next hbs =>
      exact ⟨⟨fun _ => ⟨not_not.mp hd, by rw [hbs]; exact fun hc => Option.noConfusion hc⟩,
        fun _ => rfl⟩, fun e _ => rfl, fun r hr => absurd hr (by simp)⟩
    next sh hbs =>
      split
      next hsh =>
        refine ⟨⟨fun hc => absurd hc (by simp), fun hc => absurd ?_ hc.2⟩,
          fun e he => absurd he (by simp),
          fun r hr => ⟨by rw [Except.ok.injEq] at hr; exact hr.symm,
            bufs_length_writeVals ..⟩⟩
        rw [hbs, hsh]
      next hsh =>
        exact ⟨⟨fun _ => ⟨not_not.mp hd, by rw [hbs]; simpa using hsh⟩,
          fun _ => rfl⟩, fun e _ => rfl, fun r hr => absurd hr (by simp)⟩

/-- Claim C8 witness: adding a 3-element array in place into a 2×2 receiver
fails with `ShapeError` and leaves the heap exactly as it was. -/
theorem claim_C8_witness :
    (addInPlace (⟨[[1, 1, 1, 1]]⟩ : Store) ⟨0, 0, [2, 2], [2, 1], .float32, .cpu⟩
        ⟨0, 0, [3], [1], .float32, .cpu⟩).2 = .error .shapeError ∧
    (addInPlace (⟨[[1, 1, 1, 1]]⟩ : Store) ⟨0, 0, [2, 2], [2, 1], .float32, .cpu⟩
        ⟨0, 0, [3], [1], .float32, .cpu⟩).1 = ⟨[[1, 1, 1, 1]]⟩ := by
  have herr := (claim_C8_inplace_atomic ⟨[[1, 1, 1, 1]]⟩
      ⟨0, 0, [2, 2], [2, 1], .float32, .cpu⟩ ⟨0, 0, [3], [1], .float32, .cpu⟩).1.mpr
    ⟨rfl, by decide⟩
  exact ⟨herr, (claim_C8_inplace_atomic ⟨[[1, 1, 1, 1]]⟩
      ⟨0, 0, [2, 2], [2, 1], .float32, .cpu⟩ ⟨0, 0, [3], [1], .float32, .cpu⟩).2.1
    .shapeError herr⟩

/-- Claim C5: the `out=` calling form of a binary operation (elementwise
multiply, and matrix product) with a caller-supplied pre-allocated
destination of matching shape returns the very same destination array it was
given, and the values written equal the result of the pure form of the same
operation on the same operands.  The destination is required to be a
well-formed allocation: in-bounds, non-overlapping addressed positions. -/
theorem claim_C5_out_destination (s : Store) (a b dest : NDArray)
    (hnd : (positions dest).Nodup)
    (hlt : ∀ p ∈ positions dest, p < (s.buf dest.storage).length)
    (hst : dest.storage < s.bufs.length) :
    (∀ s' r, mulOut s a b dest = .ok (s', r) → r = dest ∧
        ∃ s2 r2, mul s a b = .ok (s2, r2) ∧ readAll s' r = readAll s2 r2) ∧
    (∀ s' r, matmulOut s a b dest = .ok (s', r) → r = dest ∧
        ∃ s2 r2, matmul s a b = .ok (s2, r2) ∧ readAll s' r = readAll s2 r2) := by
  constructor
  · intro s' r hok
    unfold mulOut binOpOut at hok
    split at hok
    next => exact absurd hok (by simp)
    next hdev =>
      obtain ⟨had, hdd⟩ := not_or.mp hdev
      split at hok
      next => exact absurd hok (by simp)
      next sh hbs =>
        split at hok
        next => exact absurd hok (by simp)
        next hsh =>
          have hshape : dest.shape = sh := not_not.mp hsh
          rw [Except.ok.injEq, Prod.mk.injEq] at hok
          obtain ⟨hs', hr⟩ := hok
          subst hs'
          subst hr
          refine ⟨rfl, (s.alloc (binOpVals (· * ·) s a b sh)).1,
            ⟨s.bufs.length, 0, sh, contigStrides sh, promoteDtype a.dtype b.dtype, a.device⟩,
            ?_, ?_⟩
          · unfold mul binOp
            rw [if_neg had, hbs]
            rfl
          · have hlen : (binOpVals (· * ·) s a b sh).length = dest.numel := by
              simp [binOpVals, length_allIndices, NDArray.numel, hshape]
            rw [readAll_writeVals s dest _ hst hnd hlt hlen]
            have hbuf : ((s.alloc (binOpVals (· * ·) s a b sh)).1).buf s.bufs.length
                = binOpVals (· * ·) s a b sh := buf_alloc_self s _
            rw [readAll_contig _ _ rfl rfl
              (by rw [hbuf]; simp [binOpVals, length_allIndices, NDArray.numel]), hbuf]
  · intro s' r hok
    unfold matmulOut at hok
    split at hok
    next m n n' p hsa hsb =>
      split at hok
      next => exact absurd hok (by simp)
      next hdev =>
        obtain ⟨had, hdd⟩ := not_or.mp hdev
        split at hok
        next => exact absurd hok (by simp)
        next hn =>
          split at hok
          next => exact absurd hok (by simp)
          next hsh =>
            have hnn : n = n' := not_not.mp hn
            have hshape : dest.shape = [m, p] := not_not.mp hsh
            rw [Except.ok.injEq, Prod.mk.injEq] at hok
            obtain ⟨hs', hr⟩ := hok
            subst hs'
            subst hr
            refine ⟨rfl, (s.alloc (matmulVals s a b m n p)).1,
              ⟨s.bufs.length, 0, [m, p], contigStrides [m, p],
                promoteDtype a.dtype b.dtype, a.device⟩, ?_, ?_⟩
            · subst hnn
              unfold matmul
              rw [hsa, hsb]
              show (if a.device ≠ b.device then (Except.error Err.deviceError :
                  Except Err (Store × NDArray))
                else if n ≠ n then Except.error Err.shapeError
                else
                  match s.alloc (matmulVals s a b m n p) with
                  | (s', sid) =>
                    Except.ok (s', ⟨sid, 0, [m, p], contigStrides [m, p],
                      promoteDtype a.dtype b.dtype, a.device⟩))
                = Except.ok ((s.alloc (matmulVals s a b m n p)).1,
                    ⟨s.bufs.length, 0, [m, p], contigStrides [m, p],
                      promoteDtype a.dtype b.dtype, a.device⟩)
              rw [if_neg had, if_neg (fun hc => hc rfl)]
              rfl
            · have hlen : (matmulVals s a b m n p).length = dest.numel := by
                simp [matmulVals, length_allIndices, NDArray.numel, hshape]
              rw [readAll_writeVals s dest _ hst hnd hlt hlen]
              have hbuf : ((s.alloc (matmulVals s a b m n p)).1).buf s.bufs.length
                  = matmulVals s a b m n p := buf_alloc_self s _
              rw [readAll_contig _ _ rfl rfl
                (by rw [hbuf]; simp [matmulVals, length_allIndices, NDArray.numel]), hbuf]
    next => exact absurd hok (by simp)

/-- Claim C5 witness: `torch.mul(a, a, out=dest)` on a concrete two-element
array with a concrete pre-allocated destination returns that destination,
and the written values agree with the pure product. -/
theorem claim_C5_witness :
    (⟨1, 0, [2], [1], .float32, .cpu⟩ : NDArray) = ⟨1, 0, [2], [1], .float32, .cpu⟩ ∧
    ∃ s2 r2, mul (⟨[[1, 2], [5, 5]]⟩ : Store) ⟨0, 0, [2], [1], .float32, .cpu⟩
        ⟨0, 0, [2], [1], .float32, .cpu⟩ = .ok (s2, r2) ∧
      readAll (writeVals (⟨[[1, 2], [5, 5]]⟩ : Store) ⟨1, 0, [2], [1], .float32, .cpu⟩
          (binOpVals (· * ·) (⟨[[1, 2], [5, 5]]⟩ : Store) ⟨0, 0, [2], [1], .float32, .cpu⟩
            ⟨0, 0, [2], [1], .float32, .cpu⟩ [2]))
        ⟨1, 0, [2], [1], .float32, .cpu⟩ = readAll s2 r2 :=
  (claim_C5_out_destination ⟨[[1, 2], [5, 5]]⟩ ⟨0, 0, [2], [1], .float32, .cpu⟩
      ⟨0, 0, [2], [1], .float32, .cpu⟩ ⟨1, 0, [2], [1], .float32, .cpu⟩
      (by decide) (by decide) (by decide)).1 _ _ rfl

/-- Claim C4: `concatenate` fails with `ShapeError` unless all inputs share
rank, dtype and every dimension size except `dim`; on success the result is
a fresh allocation (its storage id differs from every input's), its size
along `dim` is the sum of the inputs' sizes, and its elements are selected
from the inputs in input order.  In particular, on the concrete 4×4
all-ones-except-column-1-zero tensor, `concatenate([t,t,t], dim=1)` yields
shape `(4,12)` with the column pattern repeated three times contiguously. -/
theorem claim_C4_concatenate (s : Store) (arrays : List NDArray) (dim : Nat) :
    (catOk arrays dim = false → cat s arrays dim = .error .shapeError) ∧
    (∀ s' r, cat s arrays dim = .ok (s', r) →
        catOk arrays dim = true ∧
        r.storage = s.bufs.length ∧
        (∀ x ∈ arrays, x.storage < s.bufs.length → r.storage ≠ x.storage) ∧
        r.shape.getD dim 0 = (arrays.map fun x => x.shape.getD dim 0).sum ∧
        readAll s' r = (allIndices r.shape).map (catSelect s dim arrays)) ∧
    (∃ s' r, cat c2Store [c2Alloc.2, c2Alloc.2, c2Alloc.2] 1 = .ok (s', r) ∧
        r.shape = [4, 12] ∧
        readAll s' r
          = [1, 0, 1, 1, 1, 0, 1, 1, 1, 0, 1, 1,
             1, 0, 1, 1, 1, 0, 1, 1, 1, 0, 1, 1,
             1, 0, 1, 1, 1, 0, 1, 1, 1, 0, 1, 1,
             1, 0, 1, 1, 1, 0, 1, 1, 1, 0, 1, 1]) := by
  refine ⟨?_, ?_, ?_⟩
  · intro h
    cases arrays with
    | nil => rfl
    | cons a rest =>
      show (if catOk (a :: rest) dim then _ else Except.error Err.shapeError)
        = Except.error Err.shapeError
      rw [if_neg (by simp [h])]
  · intro s' r hok
    cases arrays with
    | nil => exact absurd hok (by simp [cat])
    | cons a rest =>
      by_cases hcat : catOk (a :: rest) dim
      · have hceq : cat s (a :: rest) dim
            = .ok ((s.alloc ((allIndices (a.shape.set dim
                (((a :: rest).map fun x => x.shape.getD dim 0).sum))).map
                  (catSelect s dim (a :: rest)))).1,
              ⟨s.bufs.length, 0,
                a.shape.set dim (((a :: rest).map fun x => x.shape.getD dim 0).sum),
                contigStrides (a.shape.set dim
                  (((a :: rest).map fun x => x.shape.getD dim 0).sum)),
                a.dtype, a.device⟩) := by
          show (if catOk (a :: rest) dim then _ else Except.error Err.shapeError) = _
          rw [if_pos hcat]
          rfl
        rw [hceq, Except.ok.injEq, Prod.mk.injEq] at hok
        obtain ⟨hs', hr⟩ := hok
        subst hs'
        subst hr
        have hdim : dim < a.shape.length := by
          have h1 : (decide (dim < a.rank) &&
              rest.all fun b => b.dtype == a.dtype &&
                (b.shape.set dim 0 == a.shape.set dim 0)) = true := hcat
          simp only [Bool.and_eq_true] at h1
          exact of_decide_eq_true h1.1
        have hbuf : ((s.alloc ((allIndices (a.shape.set dim
            (((a :: rest).map fun x => x.shape.getD dim 0).sum))).map
              (catSelect s dim (a :: rest)))).1).buf s.bufs.length
            = (allIndices (a.shape.set dim
                (((a :: rest).map fun x => x.shape.getD dim 0).sum))).map
                  (catSelect s dim (a :: rest)) :=
          buf_alloc_self s _
        refine ⟨hcat, rfl, ?_, ?_, ?_⟩
        · intro x _ hxlt hc
          rw [← hc] at hxlt
          exact absurd hxlt (Nat.lt_irrefl _)
        · show (a.shape.set dim _).getD dim 0 = _
          rw [List.getD_eq_getElem?_getD,
            List.getElem?_set_self (by simpa using hdim)]
          rfl
        · rw [readAll_contig _ _ rfl rfl
            (by
              show (((s.alloc ((allIndices (a.shape.set dim
                  (((a :: rest).map fun x => x.shape.getD dim 0).sum))).map
                    (catSelect s dim (a :: rest)))).1).buf s.bufs.length).length = _
              rw [hbuf]
              simp [length_allIndices, NDArray.numel])]
          show ((s.alloc ((allIndices (a.shape.set dim
              (((a :: rest).map fun x => x.shape.getD dim 0).sum))).map
                (catSelect s dim (a :: rest)))).1).buf s.bufs.length = _
          rw [hbuf]
      · have h0 : catOk (a :: rest) dim = false := by
          cases hx : catOk (a :: rest) dim with
          | false => rfl
          | true => exact absurd hx hcat
        have herr : cat s (a :: rest) dim = .error .shapeError := by
          show (if catOk (a :: rest) dim then _ else Except.error Err.shapeError) = _
          rw [if_neg (by simp [h0])]
        rw [herr] at hok
        exact absurd hok (by simp)
  · refine ⟨_, _, rfl, by decide, ?_⟩
    norm_num [c2Store, c2Alloc, ones, emptyStore, Store.alloc, assignScalar, writeVals,
      selectDim, readAll, readElem, allIndices, positions, flatIndex, contigStrides,
      NDArray.numel, Store.buf, setPs, catSelect, List.range_succ]

/-- Claim C4 witness: concatenating a 2×2 array with a rank-1 array fails
with `ShapeError`. -/
theorem claim_C4_witness :
    cat (⟨[]⟩ : Store) [⟨0, 0, [2, 2], [2, 1], .float32, .cpu⟩,
      ⟨0, 0, [3], [1], .float32, .cpu⟩] 0 = .error .shapeError :=
  (claim_C4_concatenate ⟨[]⟩ [⟨0, 0, [2, 2], [2, 1], .float32, .cpu⟩,
    ⟨0, 0, [3], [1], .float32, .cpu⟩] 0).1 (by decide)

end NDEngine
